import Mathlib

/-!
Shallow embedding of the SyncMaster timestamp pipeline
(`audio_processor.py`, `mp3_embedder.py`, `utils.py`).

Python floats are modelled as exact rationals; Python `round(x, 3)` is
modelled as round-half-even at millisecond precision (`round3`), Python
`int(x)` as truncation toward zero (`py_int`), Python strings as `List Char`,
`str.strip` as `pyStrip`, `str.split()` as `pySplit`, `' '.join` as `pyJoin`.
-/

attribute [local semireducible] Rat.add Rat.sub Rat.mul Rat.inv

namespace SyncMaster

/-- Round-half-even of a rational to an integer, the semantics of Python's
built-in `round`.  Uses the executable `Rat.floor`; `rat_floor_eq` bridges
to `Int.floor` in proofs. -/
def rhe (q : ℚ) : ℤ :=
  if q - q.floor < 1/2 then q.floor
  else if 1/2 < q - q.floor then q.floor + 1
  else if q.floor % 2 = 0 then q.floor else q.floor + 1

/-- Python `round(q, 3)`: round to millisecond (3-decimal) precision. -/
def round3 (q : ℚ) : ℚ := (rhe (q * 1000) : ℚ) / 1000

/-- Python `int(q)`: truncation toward zero (floor for nonnegative,
ceiling for negative). -/
def py_int (q : ℚ) : ℤ := if 0 ≤ q then q.floor else -((-q).floor)


/-- Whitespace test on characters (Python `str.isspace` on the chars that
matter here). -/
def isWs (c : Char) : Bool := c.isWhitespace

/-- Python `str.strip()`: drop leading and trailing whitespace. -/
def pyStrip (s : List Char) : List Char :=
  ((s.dropWhile isWs).reverse.dropWhile isWs).reverse

/-- Worker for `pySplit`; `acc` holds the current token reversed. -/
def pySplitAux : List Char → List Char → List (List Char)
  | [], acc => if acc = [] then [] else [acc.reverse]
  | c :: cs, acc =>
    if isWs c then
      (if acc = [] then pySplitAux cs [] else acc.reverse :: pySplitAux cs [])
    else pySplitAux cs (c :: acc)

/-- Python `str.split()`: split on whitespace runs, dropping empty tokens. -/
def pySplit (s : List Char) : List (List Char) := pySplitAux s []

/-- Python `' '.join(ws)`. -/
def pyJoin : List (List Char) → List Char
  | [] => []
  | [w] => w
  | w :: ws => w ++ (' ') :: pyJoin ws

/-- One timed word: the dicts `{'word': ..., 'start': ..., 'end': ...}`
circulating through the pipeline.  `end` is a Lean keyword, hence `end_`. -/
structure TimedUnit where
  word : List Char
  start : ℚ
  end_ : ℚ
deriving DecidableEq, Repr

/-- `AudioProcessor.get_word_timestamps` (audio_processor.py lines 110-151),
taken after transcription: the word list is `transcription.split()` and
`audio_duration` the probed duration.  The per-word body of the loop. -/
def alloc_unit (total_words : ℕ) (audio_duration : ℚ) (i : ℕ) (word : List Char) :
    TimedUnit :=
  let start_offset : ℚ := 1/2
  let end_offset : ℚ := 1/2
  let usable_duration := audio_duration - start_offset - end_offset
  let start_time :=
    if total_words = 1 then start_offset
    else start_offset + (i : ℚ) * (usable_duration / (total_words : ℚ))
  let end_time :=
    if total_words = 1 then audio_duration - end_offset
    else start_offset + ((i : ℚ) + 1) * (usable_duration / (total_words : ℚ))
  let start_time := if 0 < i then start_time + 1/20 else start_time
  ⟨pyStrip word, round3 start_time, round3 end_time⟩

/-- `AudioProcessor.get_word_timestamps` proper: guards for non-positive
duration and empty word list, then the uniform allocation loop. -/
def get_word_timestamps (words : List (List Char)) (audio_duration : ℚ) :
    List TimedUnit :=
  if audio_duration ≤ 0 then []
  else if words = [] then []
  else words.enum.map (fun p => alloc_unit words.length audio_duration p.1 p.2)

/-- `AudioProcessor.validate_timestamps` (audio_processor.py lines 175-206):
clamp start below by 0, end above by the duration, repair `end ≤ start` to
`start + 0.1`, round to milliseconds, drop empty-word units. -/
def validate_timestamps : List TimedUnit → ℚ → List TimedUnit
  | [], _ => []
  | u :: rest, audio_duration =>
    let start_time := max 0 u.start
    let end_time := min audio_duration u.end_
    let end_time := if end_time ≤ start_time then start_time + 1/10 else end_time
    let cleaned : TimedUnit := ⟨pyStrip u.word, round3 start_time, round3 end_time⟩
    if cleaned.word = [] then validate_timestamps rest audio_duration
    else cleaned :: validate_timestamps rest audio_duration

/-- The merged unit flushed for a non-empty group `h :: t`
(utils.py lines 331-340 and 344-353): a singleton group flushes unchanged,
a larger group flushes as the space-joined words spanning first start to
last end. -/
def mergeGroup (h : TimedUnit) (t : List TimedUnit) : TimedUnit :=
  if t.isEmpty then h
  else ⟨pyJoin ((h :: t).map TimedUnit.word), h.start, (t.getLastD h).end_⟩

/-- The scan of `merge_overlapping_timestamps` (utils.py lines 322-353):
`h :: t` is the current group in original order, `rest` the units not yet
seen.  A unit joins the group iff its start minus the group's last end is
at most the threshold. -/
def mergeGo (overlap_threshold : ℚ) (h : TimedUnit) (t rest : List TimedUnit) :
    List TimedUnit :=
  match rest with
  | [] => [mergeGroup h t]
  | y :: ys =>
    if y.start - (t.getLastD h).end_ ≤ overlap_threshold then
      mergeGo overlap_threshold h (t ++ [y]) ys
    else mergeGroup h t :: mergeGo overlap_threshold y [] ys

/-- `merge_overlapping_timestamps` (utils.py lines 304-355). -/
def merge_overlapping_timestamps (word_timestamps : List TimedUnit)
    (overlap_threshold : ℚ) : List TimedUnit :=
  match word_timestamps with
  | [] => []
  | x :: xs => mergeGo overlap_threshold x [] xs

/-- `MP3Embedder._create_sylt_data` (mp3_embedder.py lines 116-144): keep
units with non-empty stripped word, emit `(word, int(start * 1000))`. -/
def create_sylt_data : List TimedUnit → List (List Char × ℤ)
  | [] => []
  | u :: rest =>
    let word := pyStrip u.word
    if word = [] then create_sylt_data rest
    else (word, py_int (u.start * 1000)) :: create_sylt_data rest

/-- A mutagen `SYLT` frame as constructed in mp3_embedder.py lines 84-90
(`Encoding.UTF8 = 3`). -/
structure SYLTFrame where
  encoding : ℕ
  lang : List Char
  format : ℕ
  type_ : ℕ
  text : List (List Char × ℤ)
deriving DecidableEq, Repr

/-- A mutagen `USLT` frame as constructed in mp3_embedder.py lines 96-101. -/
structure USLTFrame where
  encoding : ℕ
  lang : List Char
  desc : List Char
  text : List Char
deriving DecidableEq, Repr

/-- The ID3 tag container of the output file, one list of frames per frame
type (the only types this program touches). -/
structure ID3Tags where
  sylt : List SYLTFrame
  uslt : List USLTFrame
deriving DecidableEq, Repr

/-- mutagen `tags.delall('SYLT')`: remove every SYLT frame. -/
def ID3Tags.delall_SYLT (t : ID3Tags) : ID3Tags := { t with sylt := [] }

/-- mutagen `tags.add(sylt_frame)`: add one SYLT frame. -/
def ID3Tags.add_SYLT (t : ID3Tags) (f : SYLTFrame) : ID3Tags :=
  { t with sylt := t.sylt ++ [f] }

/-- mutagen `tags.delall('USLT')`: remove every USLT frame. -/
def ID3Tags.delall_USLT (t : ID3Tags) : ID3Tags := { t with uslt := [] }

/-- mutagen `tags.add(uslt_frame)`: add one USLT frame. -/
def ID3Tags.add_USLT (t : ID3Tags) (f : USLTFrame) : ID3Tags :=
  { t with uslt := t.uslt ++ [f] }

/-- The SYLT frame built at mp3_embedder.py lines 84-90. -/
def new_sylt_frame (sylt_data : List (List Char × ℤ)) : SYLTFrame :=
  { encoding := 3, lang := ("eng").data, format := 2, type_ := 1, text := sylt_data }

/-- The USLT frame built at mp3_embedder.py lines 96-101. -/
def new_uslt_frame (text : List Char) : USLTFrame :=
  { encoding := 3, lang := ("eng").data, desc := [], text := text }

/-- Outcome of step 1 of `embed_sylt_lyrics` (format conversion / copy),
an oracle for the external ffmpeg/copy interaction. -/
inductive ConvOutcome
  | alreadyMp3
  | convertOk
  | convertFail
  | noFfmpeg
deriving DecidableEq, Repr

/-- The log lines of `embed_sylt_lyrics`, abstracted to tags (the message
text, file names and exception strings are not modelled). -/
inductive LogMsg
  | init
  | startEmbedding
  | converting
  | convertSuccess
  | convertError
  | convertFallbackCopy
  | warnNoFfmpegCopy
  | alreadyMp3Copy
  | creatingSyltData
  | warnNoSyltData
  | createdEntries (n : ℕ)
  | loadingMp3
  | noTagsCreating
  | addingSylt
  | addingUslt
  | embedSuccess
  | errEmbedFailed
deriving DecidableEq, Repr

/-- Log lines emitted by step 1 for each conversion outcome. -/
def convLogs : ConvOutcome → List LogMsg
  | .alreadyMp3 => [.alreadyMp3Copy]
  | .convertOk => [.converting, .convertSuccess]
  | .convertFail => [.converting, .convertError, .convertFallbackCopy]
  | .noFfmpeg => [.warnNoFfmpegCopy]

/-- `MP3Embedder.embed_sylt_lyrics` (mp3_embedder.py lines 24-114).
File I/O is abstracted by oracles: `conv` is the step-1 outcome,
`initialTags` the tag container found in the output file after step 1
(`none` = no ID3 tags), `loadFails` whether `MP3(output_path, ID3=ID3)`
raises, `saveFails` whether `audio_file.save()` raises.  The result is the
returned pair (output path, log list) paired with the on-disk tag state of
the output file after the call. -/
def embed_sylt_lyrics (conv : ConvOutcome) (initialTags : Option ID3Tags)
    (loadFails saveFails : Bool) (word_timestamps : List TimedUnit)
    (text : List Char) (output_path : List Char) :
    (List Char × List LogMsg) × Option ID3Tags :=
  let logs0 := [LogMsg.init, LogMsg.startEmbedding] ++ convLogs conv
    ++ [LogMsg.creatingSyltData]
  let sylt_data := create_sylt_data word_timestamps
  if sylt_data = [] then
    ((output_path, logs0 ++ [LogMsg.warnNoSyltData]), initialTags)
  else
    let logs1 := logs0 ++ [LogMsg.createdEntries sylt_data.length, LogMsg.loadingMp3]
    if loadFails then
      ((output_path, logs1 ++ [LogMsg.errEmbedFailed]), initialTags)
    else
      let logs2 := logs1 ++ (if initialTags.isNone then [LogMsg.noTagsCreating] else [])
        ++ [LogMsg.addingSylt, LogMsg.addingUslt]
      let tags0 := initialTags.getD ⟨[], []⟩
      let tags1 := (tags0.delall_SYLT).add_SYLT (new_sylt_frame sylt_data)
      let tags2 := (tags1.delall_USLT).add_USLT (new_uslt_frame text)
      if saveFails then
        ((output_path, logs2 ++ [LogMsg.errEmbedFailed]), initialTags)
      else
        ((output_path, logs2 ++ [LogMsg.embedSuccess]), some tags2)

/-- `MP3Embedder.verify_sylt_embedding`'s result dictionary
(mp3_embedder.py lines 191-231); the error message string is abstracted to
a flag. -/
structure VerifyResult where
  has_sylt : Bool
  has_uslt : Bool
  sylt_entries : ℕ
  error : Bool
deriving DecidableEq, Repr

/-- `MP3Embedder.verify_sylt_embedding`: re-read the file (`loadFails` =
`MP3(mp3_path)` raises, `tags` = its tag container) and report frame
presence and the entry count of the first SYLT frame. -/
def verify_sylt_embedding (loadFails : Bool) (tags : Option ID3Tags) :
    VerifyResult :=
  if loadFails then ⟨false, false, 0, true⟩
  else
    match tags with
    | none => ⟨false, false, 0, false⟩
    | some t =>
      ⟨!t.sylt.isEmpty, !t.uslt.isEmpty,
        (match t.sylt with | [] => 0 | f :: _ => f.text.length), false⟩

/-- The (pre-rounding) start time the allocation loop computes for index
`i` of `n` words. -/
def alloc_start_arg (n : ℕ) (d : ℚ) (i : ℕ) : ℚ :=
  if 0 < i then
    (if n = 1 then (1 : ℚ)/2 else 1/2 + (i : ℚ) * ((d - 1/2 - 1/2) / (n : ℚ))) + 1/20
  else
    (if n = 1 then (1 : ℚ)/2 else 1/2 + (i : ℚ) * ((d - 1/2 - 1/2) / (n : ℚ)))

/-- The (pre-rounding) end time the allocation loop computes for index `i`
of `n` words. -/
def alloc_end_arg (n : ℕ) (d : ℚ) (i : ℕ) : ℚ :=
  if n = 1 then d - 1/2 else 1/2 + ((i : ℚ) + 1) * ((d - 1/2 - 1/2) / (n : ℚ))

/-! ### Arithmetic lemmas about the rounding model -/

/-- The executable `Rat.floor` agrees with `Int.floor`. -/
theorem rat_floor_eq (q : ℚ) : q.floor = ⌊q⌋ :=
  (Rat.floor_def' q).trans (Rat.floor_def).symm

/-- `rhe` stated with `Int.floor`. -/
theorem rhe_eq (q : ℚ) : rhe q =
    if q - ⌊q⌋ < 1/2 then ⌊q⌋
    else if 1/2 < q - ⌊q⌋ then ⌊q⌋ + 1
    else if ⌊q⌋ % 2 = 0 then ⌊q⌋ else ⌊q⌋ + 1 := by
  simp only [rhe, rat_floor_eq]

/-- `py_int` stated with `Int.floor`/`Int.ceil`. -/
theorem py_int_eq (q : ℚ) : py_int q = if 0 ≤ q then ⌊q⌋ else ⌈q⌉ := by
  simp only [py_int, rat_floor_eq, Int.floor_neg, neg_neg]

theorem rhe_ge_floor (q : ℚ) : ⌊q⌋ ≤ rhe q := by
  rw [rhe_eq]; split_ifs <;> omega

theorem rhe_le_floor_add_one (q : ℚ) : rhe q ≤ ⌊q⌋ + 1 := by
  rw [rhe_eq]; split_ifs <;> omega

theorem rhe_le (q : ℚ) : (rhe q : ℚ) ≤ q + 1/2 := by
  have h1 := Int.floor_le q
  have h2 := Int.lt_floor_add_one q
  rw [rhe_eq]; split_ifs <;> push_cast <;> linarith

theorem le_rhe (q : ℚ) : q - 1/2 ≤ (rhe q : ℚ) := by
  have h1 := Int.floor_le q
  have h2 := Int.lt_floor_add_one q
  rw [rhe_eq]; split_ifs <;> push_cast <;> linarith

theorem rhe_mono {q q' : ℚ} (h : q ≤ q') : rhe q ≤ rhe q' := by
  rcases eq_or_lt_of_le (Int.floor_le_floor h) with hf | hf
  · rw [rhe_eq, rhe_eq, ← hf]
    split_ifs <;> first | omega | (exfalso; linarith)
  · calc rhe q ≤ ⌊q⌋ + 1 := rhe_le_floor_add_one q
      _ ≤ ⌊q'⌋ := by omega
      _ ≤ rhe q' := rhe_ge_floor q'

theorem rhe_intCast (n : ℤ) : rhe (n : ℚ) = n := by
  rw [rhe_eq]
  simp only [Int.floor_intCast, sub_self]
  norm_num

theorem rhe_add_even (q : ℚ) (n : ℤ) (hn : n % 2 = 0) : rhe (q + n) = rhe q + n := by
  rw [rhe_eq, rhe_eq, Int.floor_add_int]
  have hr : q + n - (↑(⌊q⌋ + n) : ℚ) = q - ⌊q⌋ := by push_cast; ring
  rw [hr]
  split_ifs <;> omega

theorem round3_le (q : ℚ) : round3 q ≤ q + 1/2000 := by
  have h := rhe_le (q * 1000)
  rw [round3]; linarith

theorem le_round3 (q : ℚ) : q - 1/2000 ≤ round3 q := by
  have h := le_rhe (q * 1000)
  rw [round3]; linarith

theorem round3_mono {q q' : ℚ} (h : q ≤ q') : round3 q ≤ round3 q' := by
  have h1 : q * 1000 ≤ q' * 1000 := by linarith
  have h2 := rhe_mono h1
  have h3 : (rhe (q * 1000) : ℚ) ≤ (rhe (q' * 1000) : ℚ) := by exact_mod_cast h2
  rw [round3, round3]; linarith

theorem round3_nonneg {q : ℚ} (h : 0 ≤ q) : 0 ≤ round3 q := by
  have h1 : (0 : ℤ) ≤ ⌊q * 1000⌋ := Int.floor_nonneg.mpr (by linarith)
  have h2 := rhe_ge_floor (q * 1000)
  have h3 : (0 : ℚ) ≤ (rhe (q * 1000) : ℚ) := by exact_mod_cast le_trans h1 h2
  rw [round3]; linarith

theorem round3_int_div (k : ℤ) : round3 ((k : ℚ) / 1000) = (k : ℚ) / 1000 := by
  have h : ((k : ℚ) / 1000) * 1000 = (k : ℚ) := by field_simp
  rw [round3, h, rhe_intCast]

theorem round3_round3 (q : ℚ) : round3 (round3 q) = round3 q :=
  round3_int_div (rhe (q * 1000))

theorem round3_add_tenth (q : ℚ) : round3 (q + 1/10) = round3 q + 1/10 := by
  have h : (q + 1/10) * 1000 = q * 1000 + ((100 : ℤ) : ℚ) := by push_cast; ring
  rw [round3, h, rhe_add_even _ 100 (by decide), round3]
  push_cast
  ring

/-! ### String-helper lemmas -/

theorem dropWhile_dropWhile (p : Char → Bool) (l : List Char) :
    (l.dropWhile p).dropWhile p = l.dropWhile p := by
  induction l with
  | nil => simp
  | cons c cs ih =>
    rw [List.dropWhile_cons]
    split_ifs with h
    · exact ih
    · rw [List.dropWhile_cons, if_neg h]

theorem dropWhile_cons_false : ∀ (l : List Char) {a : Char} {t : List Char},
    l.dropWhile isWs = a :: t → isWs a = false := by
  intro l
  induction l with
  | nil => intro a t h; simp at h
  | cons c cs ih =>
    intro a t h
    rw [List.dropWhile_cons] at h
    split_ifs at h with hc
    · exact ih h
    · cases h; simpa using hc

theorem pyStrip_head_false {s : List Char} {a : Char} {t : List Char}
    (h : pyStrip s = a :: t) : isWs a = false := by
  have hdecomp := List.takeWhile_append_dropWhile isWs (s.dropWhile isWs).reverse
  have hA : s.dropWhile isWs
      = (pyStrip s) ++ ((s.dropWhile isWs).reverse.takeWhile isWs).reverse := by
    conv_lhs => rw [← List.reverse_reverse (s.dropWhile isWs), ← hdecomp]
    rw [List.reverse_append]
    rfl
  rw [h] at hA
  exact dropWhile_cons_false s hA

theorem dropWhile_pyStrip (s : List Char) :
    (pyStrip s).dropWhile isWs = pyStrip s := by
  cases h : pyStrip s with
  | nil => simp
  | cons a t =>
    rw [List.dropWhile_cons, pyStrip_head_false h]
    simp

theorem pyStrip_idem (s : List Char) : pyStrip (pyStrip s) = pyStrip s := by
  conv_lhs => rw [pyStrip, dropWhile_pyStrip]
  rw [pyStrip, List.reverse_reverse, dropWhile_dropWhile]

theorem pySplitAux_append (w : List Char) (rest acc : List Char)
    (hw : ∀ c ∈ w, isWs c = false) :
    pySplitAux (w ++ rest) acc = pySplitAux rest (w.reverse ++ acc) := by
  induction w generalizing acc with
  | nil => simp
  | cons c cs ih =>
    have hc : isWs c = false := hw c (by simp)
    rw [List.cons_append, pySplitAux, if_neg (by simp [hc])]
    rw [ih (c :: acc) (fun x hx => hw x (by simp [hx]))]
    simp

theorem pySplit_single {w : List Char} (hne : w ≠ [])
    (hw : ∀ c ∈ w, isWs c = false) : pySplit w = [w] := by
  have h := pySplitAux_append w [] [] hw
  rw [List.append_nil, List.append_nil] at h
  rw [pySplit, h, pySplitAux, if_neg (by simpa using hne), List.reverse_reverse]

theorem pySplit_pyJoin : ∀ (ws : List (List Char)), ws ≠ [] →
    (∀ w ∈ ws, w ≠ [] ∧ ∀ c ∈ w, isWs c = false) →
    pySplit (pyJoin ws) = ws := by
  intro ws
  induction ws with
  | nil => intro h _; exact absurd rfl h
  | cons w ws ih =>
    intro _ hw
    cases ws with
    | nil =>
      simpa [pyJoin] using pySplit_single (hw w (by simp)).1 (hw w (by simp)).2
    | cons w' t =>
      have hwh := hw w (by simp)
      have hrev : ¬ (w.reverse = []) := by simpa using hwh.1
      have hrec := ih (by simp) (fun x hx => hw x (List.mem_cons_of_mem _ hx))
      rw [show pyJoin (w :: w' :: t) = w ++ (' ') :: pyJoin (w' :: t) from rfl]
      rw [pySplit, pySplitAux_append w _ [] hwh.2, List.append_nil]
      rw [pySplitAux, if_pos (by decide), if_neg hrev, List.reverse_reverse]
      rw [pySplit] at hrec
      rw [hrec]

/-! ### Merge lemmas -/

theorem mergeGroup_start (h : TimedUnit) (t : List TimedUnit) :
    (mergeGroup h t).start = h.start := by
  rw [mergeGroup]
  split_ifs with ht
  · rfl
  · rfl

theorem mergeGroup_end (h : TimedUnit) (t : List TimedUnit) :
    (mergeGroup h t).end_ = (t.getLastD h).end_ := by
  rw [mergeGroup]
  split_ifs with ht
  · cases t with
    | nil => rfl
    | cons a as => simp at ht
  · rfl

theorem mergeGo_head_start (thr : ℚ) (rest : List TimedUnit) :
    ∀ (h : TimedUnit) (t : List TimedUnit),
      ((mergeGo thr h t rest).head?.map TimedUnit.start) = some h.start := by
  induction rest with
  | nil => intro h t; simp [mergeGo, mergeGroup_start]
  | cons y ys ih =>
    intro h t
    rw [mergeGo]
    split_ifs with hgap
    · exact ih h (t ++ [y])
    · simp [mergeGroup_start]

theorem mergeGo_chain (thr : ℚ) (rest : List TimedUnit) :
    ∀ (h : TimedUnit) (t : List TimedUnit),
      List.Chain' (fun a b => thr < b.start - a.end_) (mergeGo thr h t rest) := by
  induction rest with
  | nil => intro h t; simp [mergeGo]
  | cons y ys ih =>
    intro h t
    rw [mergeGo]
    split_ifs with hgap
    · exact ih h (t ++ [y])
    · rw [List.chain'_cons']
      refine ⟨?_, ih y []⟩
      intro z hz
      have hh := mergeGo_head_start thr ys y []
      cases hhead : (mergeGo thr y [] ys).head? with
      | none => rw [hhead] at hz; simp at hz
      | some z' =>
        rw [hhead] at hz hh
        simp only [Option.mem_def, Option.some.injEq] at hz
        simp only [Option.map_some', Option.some.injEq] at hh
        subst hz
        rw [mergeGroup_end, hh]
        linarith [not_le.mp hgap]

theorem mergeGroup_word_split (h : TimedUnit) (t : List TimedUnit)
    (hyp : ∀ u ∈ h :: t, u.word ≠ [] ∧ ∀ c ∈ u.word, isWs c = false) :
    pySplit (mergeGroup h t).word = (h :: t).map TimedUnit.word := by
  rw [mergeGroup]
  split_ifs with ht
  · cases t with
    | nil =>
      have hh := hyp h (by simp)
      simpa using pySplit_single hh.1 hh.2
    | cons a as => simp at ht
  · show pySplit (pyJoin ((h :: t).map TimedUnit.word)) = _
    apply pySplit_pyJoin
    · simp
    · intro w hw
      rw [List.mem_map] at hw
      obtain ⟨u, hu, rfl⟩ := hw
      exact hyp u hu

theorem mergeGo_words (thr : ℚ) (rest : List TimedUnit) :
    ∀ (h : TimedUnit) (t : List TimedUnit),
      (∀ u ∈ h :: (t ++ rest), u.word ≠ [] ∧ ∀ c ∈ u.word, isWs c = false) →
      ((mergeGo thr h t rest).map (fun u => pySplit u.word)).flatten
        = (h :: (t ++ rest)).map TimedUnit.word := by
  induction rest with
  | nil =>
    intro h t hyp
    rw [mergeGo]
    simp only [List.map_cons, List.map_nil, List.flatten_cons, List.flatten_nil]
    rw [mergeGroup_word_split h t (by simpa using hyp)]
    simp
  | cons y ys ih =>
    intro h t hyp
    rw [mergeGo]
    split_ifs with hgap
    · have := ih h (t ++ [y]) (by
        intro u hu
        apply hyp
        simpa [List.append_assoc] using hu)
      rw [this]
      simp
    · rw [List.map_cons, List.flatten_cons]
      rw [mergeGroup_word_split h t (by
        intro u hu
        apply hyp
        rcases List.mem_cons.mp hu with h1 | h1
        · simp [h1]
        · simp [List.mem_append.mpr (Or.inl h1)])]
      rw [ih y [] (by
        intro u hu
        apply hyp
        rcases List.mem_cons.mp hu with h1 | h1
        · simp [h1]
        · simp at h1
          simp [List.mem_append.mpr (Or.inr (List.mem_cons_of_mem _ h1))])]
      simp

/-! ### Validation lemmas -/

theorem validate_mem (d : ℚ) : ∀ (l : List TimedUnit) (v : TimedUnit),
    v ∈ validate_timestamps l d →
    ∃ u ∈ l, pyStrip u.word ≠ [] ∧
      v = ⟨pyStrip u.word, round3 (max 0 u.start),
        round3 (if min d u.end_ ≤ max 0 u.start then max 0 u.start + 1/10
                else min d u.end_)⟩ := by
  intro l
  induction l with
  | nil => intro v hv; simp [validate_timestamps] at hv
  | cons u rest ih =>
    intro v hv
    simp only [validate_timestamps] at hv
    split_ifs at hv with hw hrep
    · obtain ⟨u', hu', h1, h2⟩ := ih v hv
      exact ⟨u', List.mem_cons_of_mem _ hu', h1, h2⟩
    · rcases List.mem_cons.mp hv with h | h
      · refine ⟨u, by simp, hw, ?_⟩
        rw [if_pos hrep]
        exact h
      · obtain ⟨u', hu', h1, h2⟩ := ih v h
        exact ⟨u', List.mem_cons_of_mem _ hu', h1, h2⟩
    · rcases List.mem_cons.mp hv with h | h
      · refine ⟨u, by simp, hw, ?_⟩
        rw [if_neg hrep]
        exact h
      · obtain ⟨u', hu', h1, h2⟩ := ih v h
        exact ⟨u', List.mem_cons_of_mem _ hu', h1, h2⟩

theorem validate_out_le (l : List TimedUnit) (d : ℚ) :
    ∀ v ∈ validate_timestamps l d, v.start ≤ v.end_ := by
  intro v hv
  obtain ⟨u, _, _, rfl⟩ := validate_mem d l v hv
  by_cases hrep : min d u.end_ ≤ max 0 u.start
  · rw [if_pos hrep, round3_add_tenth]
    simp only
    linarith
  · rw [if_neg hrep]
    exact round3_mono (le_of_lt (not_le.mp hrep))

theorem validate_out_forms (l : List TimedUnit) (d : ℚ) :
    ∀ v ∈ validate_timestamps l d,
      pyStrip v.word = v.word ∧ v.word ≠ [] ∧ 0 ≤ v.start ∧
      round3 v.start = v.start ∧ round3 v.end_ = v.end_ := by
  intro v hv
  obtain ⟨u, _, hw, rfl⟩ := validate_mem d l v hv
  refine ⟨pyStrip_idem _, hw, round3_nonneg (le_max_left 0 _), round3_round3 _,
    round3_round3 _⟩

theorem validate_starts_sorted (d : ℚ) : ∀ (l : List TimedUnit),
    (l.map TimedUnit.start).Pairwise (· ≤ ·) →
    ((validate_timestamps l d).map TimedUnit.start).Pairwise (· ≤ ·) := by
  intro l
  induction l with
  | nil => intro _; simp [validate_timestamps]
  | cons u rest ih =>
    intro h
    rw [List.map_cons, List.pairwise_cons] at h
    simp only [validate_timestamps]
    split_ifs with hw hrep
    · exact ih h.2
    all_goals
      rw [List.map_cons, List.pairwise_cons]
      refine ⟨?_, ih h.2⟩
      intro s hs
      rw [List.mem_map] at hs
      obtain ⟨v, hv, rfl⟩ := hs
      obtain ⟨u', hu', _, rfl⟩ := validate_mem d rest v hv
      have h1 : u.start ≤ u'.start :=
        h.1 u'.start (List.mem_map_of_mem TimedUnit.start hu')
      exact round3_mono (max_le_max le_rfl h1)

theorem validate_fixed : ∀ (l : List TimedUnit) (d : ℚ),
    (∀ u ∈ l, pyStrip u.word = u.word ∧ u.word ≠ [] ∧ 0 ≤ u.start ∧
      round3 u.start = u.start ∧ round3 u.end_ = u.end_ ∧
      u.start < u.end_ ∧ u.end_ ≤ d) →
    validate_timestamps l d = l := by
  intro l
  induction l with
  | nil => intro d _; rfl
  | cons u rest ih =>
    intro d h
    obtain ⟨hw, hne, hs0, hrs, hre, hlt, hle⟩ := h u (by simp)
    have hmax : max 0 u.start = u.start := max_eq_right hs0
    have hmin : min d u.end_ = u.end_ := min_eq_right hle
    simp only [validate_timestamps, hmax, hmin, if_neg (not_le.mpr hlt), hw, hrs,
      hre]
    rw [if_neg hne]
    rw [ih d (fun v hv => h v (List.mem_cons_of_mem _ hv))]

/-! ### Allocator lemmas -/

theorem alloc_unit_start (n : ℕ) (d : ℚ) (i : ℕ) (w : List Char) :
    (alloc_unit n d i w).start = round3 (alloc_start_arg n d i) := rfl

theorem alloc_unit_end (n : ℕ) (d : ℚ) (i : ℕ) (w : List Char) :
    (alloc_unit n d i w).end_ = round3 (alloc_end_arg n d i) := rfl

theorem alloc_start_arg_mono (n : ℕ) (d : ℚ) (hd : 1 ≤ d) {i j : ℕ}
    (hij : i ≤ j) : alloc_start_arg n d i ≤ alloc_start_arg n d j := by
  have hw : 0 ≤ (d - 1/2 - 1/2) / (n : ℚ) :=
    div_nonneg (by linarith) (Nat.cast_nonneg n)
  have hcast : (i : ℚ) ≤ (j : ℚ) := Nat.cast_le.mpr hij
  have hmul : (i : ℚ) * ((d - 1/2 - 1/2) / (n : ℚ))
      ≤ (j : ℚ) * ((d - 1/2 - 1/2) / (n : ℚ)) :=
    mul_le_mul_of_nonneg_right hcast hw
  have hj0 : 0 ≤ (j : ℚ) * ((d - 1/2 - 1/2) / (n : ℚ)) :=
    mul_nonneg (Nat.cast_nonneg j) hw
  unfold alloc_start_arg
  split_ifs <;> linarith

theorem alloc_end_arg_le (n : ℕ) (d : ℚ) (hd : 1 ≤ d) {i : ℕ} (hn : 0 < n)
    (hi : i < n) : alloc_end_arg n d i ≤ d - 1/2 := by
  unfold alloc_end_arg
  split_ifs with h1
  · exact le_rfl
  · have hn0 : ((n : ℚ)) ≠ 0 := Nat.cast_ne_zero.mpr hn.ne'
    have hw : 0 ≤ (d - 1/2 - 1/2) / (n : ℚ) :=
      div_nonneg (by linarith) (Nat.cast_nonneg n)
    have hcast : ((i : ℚ) + 1) ≤ (n : ℚ) := by
      have h2 : ((i + 1 : ℕ) : ℚ) ≤ (n : ℚ) := Nat.cast_le.mpr (Nat.succ_le_of_lt hi)
      push_cast at h2
      linarith
    have hmul : ((i : ℚ) + 1) * ((d - 1/2 - 1/2) / (n : ℚ))
        ≤ (n : ℚ) * ((d - 1/2 - 1/2) / (n : ℚ)) :=
      mul_le_mul_of_nonneg_right hcast hw
    have hcancel : (n : ℚ) * ((d - 1/2 - 1/2) / (n : ℚ)) = d - 1/2 - 1/2 := by
      field_simp
      ring
    rw [hcancel] at hmul
    linarith

/-! ### Claim theorems -/

/-- Claim C1 (code bug): the spec requires the USLT frame to be embedded
whenever the full text is non-empty, independent of SYLT success; the code
instead returns right after the "No SYLT data" warning, never touching the
tags.  Evaluated at the spec's own scenario (empty word list, non-empty
text): the tag container is left unchanged, verification reports
`has_uslt = false`, and the warning log is present. -/
theorem uslt_skipped_on_empty_sylt_eval :
    (embed_sylt_lyrics .alreadyMp3 (some ⟨[], []⟩) false false []
        (("Hello world").data) (("out.mp3").data)).2 = some ⟨[], []⟩ ∧
    (verify_sylt_embedding false
      (embed_sylt_lyrics .alreadyMp3 (some ⟨[], []⟩) false false []
        (("Hello world").data) (("out.mp3").data)).2).has_uslt = false ∧
    (verify_sylt_embedding false
      (embed_sylt_lyrics .alreadyMp3 (some ⟨[], []⟩) false false []
        (("Hello world").data) (("out.mp3").data)).2).has_sylt = false ∧
    LogMsg.warnNoSyltData ∈
      (embed_sylt_lyrics .alreadyMp3 (some ⟨[], []⟩) false false []
        (("Hello world").data) (("out.mp3").data)).1.2 ∧
    ("Hello world").data ≠ [] := by
  refine ⟨rfl, rfl, rfl, by decide, by decide⟩

/-- Claim C2 counterexample: `validate_timestamps` does not enforce
`end - start ≥ 0.1` (a unit with span 0.05 s passes through untouched) and
does not re-order units (decreasing input starts stay decreasing). -/
theorem validate_min_duration_and_order_cex :
    (¬ ∀ v ∈ validate_timestamps [⟨("a").data, 0, 1/20⟩] 10,
        1/10 ≤ v.end_ - v.start) ∧
    ¬ ((validate_timestamps [⟨("a").data, 1, 2⟩, ⟨("b").data, 0, 1/2⟩] 10).map
        TimedUnit.start).Pairwise (· ≤ ·) := by
  constructor
  · decide
  · decide

/-- Claim C2 (amended): every unit output by `validate_timestamps` satisfies
`start ≤ end` (not `end - start ≥ 0.1`), and the output is non-decreasing in
`start` provided the input already is (the validator preserves order but
never sorts). -/
theorem validate_start_le_end_and_order (l : List TimedUnit) (d : ℚ)
    (hsort : (l.map TimedUnit.start).Pairwise (· ≤ ·)) :
    (∀ v ∈ validate_timestamps l d, v.start ≤ v.end_) ∧
    ((validate_timestamps l d).map TimedUnit.start).Pairwise (· ≤ ·) :=
  ⟨validate_out_le l d, validate_starts_sorted d l hsort⟩

/-- Witness for C2's amended theorem at a concrete sorted input. -/
theorem validate_start_le_end_and_order_w :
    (([⟨("a").data, 0, 1/20⟩, ⟨("b").data, 1, 2⟩] : List TimedUnit).map
       TimedUnit.start).Pairwise (· ≤ ·) ∧
    ((∀ v ∈ validate_timestamps [⟨("a").data, 0, 1/20⟩, ⟨("b").data, 1, 2⟩] 10,
        v.start ≤ v.end_) ∧
     ((validate_timestamps [⟨("a").data, 0, 1/20⟩, ⟨("b").data, 1, 2⟩] 10).map
        TimedUnit.start).Pairwise (· ≤ ·)) :=
  ⟨by decide, validate_start_le_end_and_order _ 10 (by decide)⟩

/-- Claim C3 counterexample: on words = ["Hello","world"], duration 3.0 the
code does NOT produce the spec's entries [("Hello",500),("world",2050)]. -/
theorem allocate_hello_world_spec_values_cex :
    create_sylt_data (get_word_timestamps [("Hello").data, ("world").data] 3)
      ≠ [(("Hello").data, 500), (("world").data, 2050)] := by
  decide

/-- Claim C3 (amended): with words = ["Hello","world"] and duration 3.0 the
allocator yields spans [0.5, 1.5] and [1.55, 2.5] (each word gets
usable/n = 1.0 s, not 1.5 s), and `encode_sylt` yields
[("Hello",500),("world",1550)]. -/
theorem allocate_hello_world_actual :
    get_word_timestamps [("Hello").data, ("world").data] 3
      = [⟨("Hello").data, 1/2, 3/2⟩, ⟨("world").data, 31/20, 5/2⟩] ∧
    create_sylt_data (get_word_timestamps [("Hello").data, ("world").data] 3)
      = [(("Hello").data, 500), (("world").data, 1550)] := by
  constructor
  · decide
  · decide

/-- Claim C4 counterexample: the allocation loop does not drop empty or
whitespace-only words, so the output length can exceed the number of
non-empty words. -/
theorem allocate_keeps_empty_words_cex :
    ([("Hello").data, ([] : List Char)] ≠ ([] : List (List Char))) ∧
    ((1 : ℚ) < 3) ∧
    (get_word_timestamps [("Hello").data, []] 3).length = 2 ∧
    (([("Hello").data, ([] : List Char)]).filter (fun w => !w.isEmpty)).length
      = 1 := by
  refine ⟨by decide, by decide, by decide, by decide⟩

/-- Claim C4 (amended): for every non-empty word list and duration above
1 s, the allocator emits exactly one unit per input word (empty words
included — they are only dropped later, by validation or SYLT encoding),
with non-decreasing start times, and every unit's end at most the
duration. -/
theorem allocate_length_monotone_bounded (words : List (List Char)) (d : ℚ)
    (hw : words ≠ []) (hd : 1 < d) :
    (get_word_timestamps words d).length = words.length ∧
    ((get_word_timestamps words d).map TimedUnit.start).Pairwise (· ≤ ·) ∧
    ∀ u ∈ get_word_timestamps words d, u.end_ ≤ d := by
  have hd0 : ¬ (d ≤ 0) := by linarith
  rw [get_word_timestamps, if_neg hd0, if_neg hw]
  refine ⟨by rw [List.length_map, List.enum_length], ?_, ?_⟩
  · rw [List.map_map]
    have hfun : (TimedUnit.start ∘ fun p : ℕ × List Char =>
        alloc_unit words.length d p.1 p.2)
        = (fun i => round3 (alloc_start_arg words.length d i)) ∘ Prod.fst := by
      funext p
      simp [Function.comp, alloc_unit_start]
    rw [hfun, ← List.map_map, List.enum_map_fst, List.pairwise_map]
    exact (List.pairwise_lt_range words.length).imp
      (fun hij =>
        round3_mono (alloc_start_arg_mono words.length d (le_of_lt hd)
          (le_of_lt hij)))
  · intro u hu
    obtain ⟨p, hp, rfl⟩ := List.mem_map.mp hu
    have hlt : p.1 < words.length := by
      have h1 : p.1 ∈ words.enum.map Prod.fst := List.mem_map_of_mem Prod.fst hp
      rw [List.enum_map_fst] at h1
      exact List.mem_range.mp h1
    have hn : 0 < words.length := List.length_pos.mpr hw
    have h2 := alloc_end_arg_le words.length d (le_of_lt hd) hn hlt
    have h3 := round3_le (alloc_end_arg words.length d p.1)
    rw [alloc_unit_end]
    linarith

/-- Witness for C4's amended theorem. -/
theorem allocate_length_monotone_bounded_w :
    ([("a").data, ("b").data] ≠ ([] : List (List Char))) ∧ ((1 : ℚ) < 3) ∧
    ((get_word_timestamps [("a").data, ("b").data] 3).length
        = [("a").data, ("b").data].length ∧
      ((get_word_timestamps [("a").data, ("b").data] 3).map
        TimedUnit.start).Pairwise (· ≤ ·) ∧
      ∀ u ∈ get_word_timestamps [("a").data, ("b").data] 3, u.end_ ≤ 3) :=
  ⟨by decide, by decide,
    allocate_length_monotone_bounded [("a").data, ("b").data] 3
      (by decide) (by decide)⟩

/-- Claim C5 counterexample: `validate_timestamps` is not idempotent.
Millisecond rounding can collapse `(1.0001, 1.0002)` to `(1.0, 1.0)`, and
the second pass then applies the `end = start + 0.1` repair. -/
theorem validate_not_idempotent_cex :
    validate_timestamps
        (validate_timestamps [⟨("a").data, 10001/10000, 10002/10000⟩] 10) 10
      ≠ validate_timestamps [⟨("a").data, 10001/10000, 10002/10000⟩] 10 := by
  decide

/-- Claim C5 (amended): `validate_timestamps` is idempotent on every input
whose first-pass output has `start < end` and `end ≤ duration` — i.e.
whenever rounding does not collapse a span to zero and the repair does not
push an end past the duration. -/
theorem validate_idempotent_on_bounded (l : List TimedUnit) (d : ℚ)
    (h : ∀ v ∈ validate_timestamps l d, v.end_ ≤ d ∧ v.start < v.end_) :
    validate_timestamps (validate_timestamps l d) d
      = validate_timestamps l d := by
  apply validate_fixed
  intro v hv
  obtain ⟨h1, h2, h3, h4, h5⟩ := validate_out_forms l d v hv
  obtain ⟨h6, h7⟩ := h v hv
  exact ⟨h1, h2, h3, h4, h5, h7, h6⟩

/-- Witness for C5's amended theorem. -/
theorem validate_idempotent_on_bounded_w :
    (∀ v ∈ validate_timestamps [⟨("a").data, 1/2, 1⟩] 2,
        v.end_ ≤ 2 ∧ v.start < v.end_) ∧
    validate_timestamps (validate_timestamps [⟨("a").data, 1/2, 1⟩] 2) 2
      = validate_timestamps [⟨("a").data, 1/2, 1⟩] 2 :=
  ⟨by decide, validate_idempotent_on_bounded _ _ (by decide)⟩

/-- Claim C6: merging preserves the word sequence (splitting every output
word field on whitespace and concatenating reproduces the input words
exactly) and leaves no two adjacent output entries with gap at most the
threshold.  Words are required non-empty and whitespace-free, as the
TimedWord data model guarantees. -/
theorem merge_preserves_words_and_gaps (l : List TimedUnit) (thr : ℚ)
    (h : ∀ u ∈ l, u.word ≠ [] ∧ ∀ c ∈ u.word, isWs c = false) :
    ((merge_overlapping_timestamps l thr).map
        (fun u => pySplit u.word)).flatten = l.map TimedUnit.word ∧
    List.Chain' (fun a b => thr < b.start - a.end_)
      (merge_overlapping_timestamps l thr) := by
  cases l with
  | nil => exact ⟨rfl, List.chain'_nil⟩
  | cons x xs =>
    constructor
    · have hmw := mergeGo_words thr xs x [] (by simpa using h)
      simp only [merge_overlapping_timestamps]
      simpa using hmw
    · simp only [merge_overlapping_timestamps]
      exact mergeGo_chain thr xs x []

/-- Witness for C6's theorem at concrete units that do merge. -/
theorem merge_preserves_words_and_gaps_w :
    (∀ u ∈ ([⟨("ab").data, 0, 1⟩, ⟨("cd").data, 51/50, 2⟩,
        ⟨("ef").data, 3, 4⟩] : List TimedUnit),
      u.word ≠ [] ∧ ∀ c ∈ u.word, isWs c = false) ∧
    (((merge_overlapping_timestamps
        [⟨("ab").data, 0, 1⟩, ⟨("cd").data, 51/50, 2⟩, ⟨("ef").data, 3, 4⟩]
        (1/20)).map (fun u => pySplit u.word)).flatten
      = ([⟨("ab").data, 0, 1⟩, ⟨("cd").data, 51/50, 2⟩,
          ⟨("ef").data, 3, 4⟩] : List TimedUnit).map TimedUnit.word ∧
     List.Chain' (fun a b => (1:ℚ)/20 < b.start - a.end_)
      (merge_overlapping_timestamps
        [⟨("ab").data, 0, 1⟩, ⟨("cd").data, 51/50, 2⟩, ⟨("ef").data, 3, 4⟩]
        (1/20))) :=
  ⟨by decide, merge_preserves_words_and_gaps _ _ (by decide)⟩

/-- Claim C7: `_create_sylt_data` keeps exactly the units whose stripped
word is non-empty, emits `⌊start·1000⌋` for each (Python `int()` truncation
equals the floor since the TimedWord model has `start ≥ 0`), and maps the
empty list to the empty list. -/
theorem sylt_encoding_filter_truncate : ∀ (l : List TimedUnit),
    (∀ u ∈ l, 0 ≤ u.start) →
    create_sylt_data l
      = (l.filter (fun u => !(pyStrip u.word).isEmpty)).map
          (fun u => (pyStrip u.word, ⌊u.start * 1000⌋)) ∧
    create_sylt_data ([] : List TimedUnit) = [] := by
  intro l
  induction l with
  | nil => intro _; exact ⟨rfl, rfl⟩
  | cons u rest ih =>
    intro h
    have hu : (0 : ℚ) ≤ u.start := h u (by simp)
    have ihr := (ih (fun v hv => h v (List.mem_cons_of_mem _ hv))).1
    refine ⟨?_, rfl⟩
    simp only [create_sylt_data, List.filter_cons]
    by_cases hw : pyStrip u.word = []
    · rw [if_pos hw]
      have hb : (!(pyStrip u.word).isEmpty) = false := by simp [hw]
      rw [hb]
      simpa using ihr
    · rw [if_neg hw]
      have hb : (!(pyStrip u.word).isEmpty) = true := by
        simp [List.isEmpty_iff, hw]
      have hpy : py_int (u.start * 1000) = ⌊u.start * 1000⌋ := by
        rw [py_int_eq, if_pos (by positivity)]
      simp [hb, ihr, hpy]

/-- Witness for C7's theorem. -/
theorem sylt_encoding_filter_truncate_w :
    (∀ u ∈ ([⟨("  hi ").data, 1/2, 1⟩, ⟨(" ").data, 2, 3⟩] : List TimedUnit),
        0 ≤ u.start) ∧
    (create_sylt_data [⟨("  hi ").data, 1/2, 1⟩, ⟨(" ").data, 2, 3⟩]
      = (([⟨("  hi ").data, 1/2, 1⟩, ⟨(" ").data, 2, 3⟩] :
          List TimedUnit).filter (fun u => !(pyStrip u.word).isEmpty)).map
          (fun u => (pyStrip u.word, ⌊u.start * 1000⌋)) ∧
     create_sylt_data ([] : List TimedUnit) = []) :=
  ⟨by decide, sylt_encoding_filter_truncate _ (by decide)⟩

/-- Claim C8: a successful embed (SYLT data non-empty, load and save both
succeed) leaves the container with exactly one SYLT frame and exactly one
USLT frame, whatever frames (including duplicates) were there before:
`delall` runs before each `add`. -/
theorem embed_replaces_frames_uniquely (conv : ConvOutcome)
    (initialTags : Option ID3Tags) (wt : List TimedUnit)
    (text output_path : List Char) (hs : create_sylt_data wt ≠ []) :
    ∃ t : ID3Tags,
      (embed_sylt_lyrics conv initialTags false false wt text output_path).2
        = some t ∧
      t.sylt = [new_sylt_frame (create_sylt_data wt)] ∧
      t.uslt = [new_uslt_frame text] ∧
      t.sylt.length = 1 ∧ t.uslt.length = 1 := by
  simp only [embed_sylt_lyrics, if_neg hs]
  exact ⟨_, rfl, rfl, rfl, rfl, rfl⟩

/-- Witness for C8's theorem, starting from a container already holding two
SYLT and two USLT frames. -/
theorem embed_replaces_frames_uniquely_w :
    (create_sylt_data [⟨("a").data, 1, 2⟩] ≠ []) ∧
    ∃ t : ID3Tags,
      (embed_sylt_lyrics .alreadyMp3
          (some ⟨[new_sylt_frame [], new_sylt_frame []],
                 [new_uslt_frame [], new_uslt_frame []]⟩)
          false false [⟨("a").data, 1, 2⟩] (("x").data) (("p").data)).2
        = some t ∧
      t.sylt = [new_sylt_frame (create_sylt_data [⟨("a").data, 1, 2⟩])] ∧
      t.uslt = [new_uslt_frame (("x").data)] ∧
      t.sylt.length = 1 ∧ t.uslt.length = 1 :=
  ⟨by decide, embed_replaces_frames_uniquely .alreadyMp3 _ _ _ _ (by decide)⟩

/-- Claim C9 counterexample: with clamped start 4.9001 and duration 5, the
hypotheses of the claim hold but the rounded output end is exactly 5, not
strictly greater than the duration. -/
theorem validate_end_can_equal_duration_cex :
    (pyStrip (("a").data) ≠ []) ∧
    ((5 : ℚ) - 1/10 < max 0 (49001/10000 : ℚ)) ∧
    (min (5 : ℚ) 3 ≤ max 0 (49001/10000 : ℚ)) ∧
    ¬ (∀ v ∈ validate_timestamps [⟨("a").data, 49001/10000, 3⟩] 5,
        (5 : ℚ) < v.end_) := by
  refine ⟨by decide, by decide, by decide, by decide⟩

/-- Claim C9 (amended): for a unit with non-empty word whose clamped start
exceeds `duration - 0.1` and whose clamped end is at most the clamped
start, validation outputs the unit with `end = start + 0.1`; that end
strictly exceeds the duration provided the clamped start is
millisecond-aligned (as every allocator- or validator-produced start is) —
without that alignment the rounded end can equal the duration. -/
theorem validate_repair_exceeds_duration (u : TimedUnit) (d : ℚ)
    (hw : pyStrip u.word ≠ [])
    (hs : d - 1/10 < max 0 u.start)
    (he : min d u.end_ ≤ max 0 u.start)
    (hms : round3 (max 0 u.start) = max 0 u.start) :
    validate_timestamps [u] d
      = [⟨pyStrip u.word, max 0 u.start, max 0 u.start + 1/10⟩] ∧
    d < max 0 u.start + 1/10 := by
  constructor
  · simp only [validate_timestamps]
    rw [if_pos he, if_neg hw, round3_add_tenth, hms]
  · linarith

/-- Witness for C9's amended theorem: start 4.95 (millisecond-aligned),
end 3, duration 5 — the output end 5.05 exceeds the duration. -/
theorem validate_repair_exceeds_duration_w :
    (pyStrip (("a").data) ≠ []) ∧
    ((5 : ℚ) - 1/10 < max 0 (99/20 : ℚ)) ∧
    (min (5 : ℚ) 3 ≤ max 0 (99/20 : ℚ)) ∧
    (round3 (max 0 (99/20 : ℚ)) = max 0 (99/20 : ℚ)) ∧
    (validate_timestamps [⟨("a").data, 99/20, 3⟩] 5
      = [⟨pyStrip (("a").data), max 0 (99/20 : ℚ),
          max 0 (99/20 : ℚ) + 1/10⟩] ∧
     (5 : ℚ) < max 0 (99/20 : ℚ) + 1/10) :=
  ⟨by decide, by decide, by decide, by decide,
    validate_repair_exceeds_duration ⟨("a").data, 99/20, 3⟩ 5
      (by decide) (by decide) (by decide) (by decide)⟩

/-- Claim C10: `embed_sylt_lyrics` is total at its interface — every
combination of external outcomes returns the pair with the same output
path, and load/save failures only surface as error log entries. -/
theorem embed_total_returns_path (conv : ConvOutcome)
    (initialTags : Option ID3Tags) (loadFails saveFails : Bool)
    (wt : List TimedUnit) (text output_path : List Char) :
    (embed_sylt_lyrics conv initialTags loadFails saveFails wt text
        output_path).1.1 = output_path ∧
    (loadFails = true → create_sylt_data wt ≠ [] →
      LogMsg.errEmbedFailed ∈ (embed_sylt_lyrics conv initialTags loadFails
        saveFails wt text output_path).1.2) ∧
    (saveFails = true → loadFails = false → create_sylt_data wt ≠ [] →
      LogMsg.errEmbedFailed ∈ (embed_sylt_lyrics conv initialTags loadFails
        saveFails wt text output_path).1.2) := by
  by_cases h1 : create_sylt_data wt = []
  · simp only [embed_sylt_lyrics, if_pos h1]
    exact ⟨by trivial, fun _ hne => absurd h1 hne, fun _ _ hne => absurd h1 hne⟩
  · cases loadFails with
    | true =>
      refine ⟨?_, fun _ _ => ?_, fun _ hlf _ => by simp at hlf⟩
      · simp [embed_sylt_lyrics, if_neg h1]
      · simp [embed_sylt_lyrics, if_neg h1]
    | false =>
      cases saveFails with
      | true =>
        refine ⟨?_, fun hlf _ => by simp at hlf, fun _ _ _ => ?_⟩
        · simp [embed_sylt_lyrics, if_neg h1]
        · simp [embed_sylt_lyrics, if_neg h1]
      | false =>
        refine ⟨?_, fun hlf _ => by simp at hlf, fun hsf _ _ => by simp at hsf⟩
        simp [embed_sylt_lyrics, if_neg h1]

/-- Witness for C10's theorem: a failing load still returns the path and
logs the embedding error. -/
theorem embed_total_returns_path_w :
    LogMsg.errEmbedFailed ∈ (embed_sylt_lyrics .alreadyMp3 none true false
      [⟨("a").data, 1, 2⟩] (("t").data) (("p").data)).1.2 :=
  (embed_total_returns_path .alreadyMp3 none true false
    [⟨("a").data, 1, 2⟩] (("t").data) (("p").data)).2.1 rfl (by decide)

end SyncMaster
